import Mathlib

/-!
Verification development for the VASPy coordinate-file module
(`vaspy/atomco.py`).

The source module reads and writes line-oriented, whitespace-tokenized text
files.  The tokenizing helpers (`str2list`, `line2list`, from
`vaspy/functions.py`, which is not part of the sources given) are, per the
specification, external collaborators whose contract is to "turn a line of
text into a list of typed tokens".  Modelled from the spec: a line of text
is therefore embedded as a `List Tok`, where a token is either a numeric
token (the value `float`/`int` conversion would produce, as an exact
rational) or a plain string token (on which `float`/`int` conversion fails).
A document (`f.readlines()`) is a `List Line`.

Machine floats are embedded as exact rationals; fixed-width `printf`-style
float formatting (`"{:18.12f}"` etc.) is embedded as exact decimal rounding
of the value to the given number of fractional digits (`fmtF`), which is the
value the formatted text denotes.  Failure (a Python exception) is `none`.
-/

inductive Tok where
  | num (q : ℚ)
  | str (s : String)
deriving DecidableEq, Repr

abbrev Line := List Tok

/-- `float(tok)`: succeeds exactly on numeric tokens. -/
def tokFloat : Tok → Option ℚ
  | Tok.num q => some q
  | Tok.str _ => none

/-- `int(tok)`: succeeds on numeric tokens denoting an integer. -/
def tokInt : Tok → Option ℤ
  | Tok.num q => if q.den = 1 then some q.num else none
  | Tok.str _ => none

/-- `float(line)` applied to a whole line: the line must consist of a single
numeric token. -/
def lineFloat : Line → Option ℚ
  | [Tok.num q] => some q
  | _ => none

/-- `int(line.strip())` applied to a whole line. -/
def lineInt : Line → Option ℤ
  | [t] => tokInt t
  | _ => none


/-- Convert each element, failing when any conversion fails (the loop a
`np` conversion or a list comprehension performs). -/
def optMap {α β : Type} (f : α → Option β) : List α → Option (List β)
  | [] => some []
  | a :: l => do
    let b ← f a
    let bs ← optMap f l
    some (b :: bs)

/-- All rows have the same length (a ragged nested list cannot be converted
to a 2-D numeric `np.array`). -/
def allSameLength : List Line → Bool
  | [] => true
  | l :: ls => ls.all (fun x => x.length = l.length)

/-- `np.float64(np.array(rows))`: every token numeric, rows rectangular. -/
def npFloat2d (rows : List Line) : Option (List (List ℚ)) :=
  if allSameLength rows then optMap (fun l => optMap tokFloat l) rows else none

/-- Exact value denoted by `"{:w.df}".format(x)`: `x` rounded to `d` decimal
digits. -/
def fmtF (d : ℕ) (q : ℚ) : ℚ := (round (q * 10 ^ d) : ℤ) / 10 ^ d

/-- `AtomCo.verify`: raises (`none`) when the coordinate row count disagrees
with the stored total atom count. -/
def AtomCo.verify (dataLen : ℕ) (ntot : ℤ) : Option Unit :=
  if (dataLen : ℤ) = ntot then some () else none

/-! ## Coordinate transform (`AtomCo.dir2cart` / `AtomCo.cart2dir`)

The numpy code forms `A = np.matrix(bases).T` and computes `A*x` resp.
`A.I*b` column-by-column; per coordinate row `v` this is `A·v` resp.
`A⁻¹·v`.  `np.matrix.I` raises `LinAlgError("Singular matrix")` on a
non-invertible matrix; in the exact-arithmetic embedding this is the
determinant-zero case. -/

structure V3 where
  x : ℚ
  y : ℚ
  z : ℚ
deriving DecidableEq, Repr

structure Mat3 where
  r1 : V3
  r2 : V3
  r3 : V3
deriving DecidableEq, Repr

def dot3 (a b : V3) : ℚ := a.x * b.x + a.y * b.y + a.z * b.z

def mulVec (m : Mat3) (v : V3) : V3 :=
  ⟨dot3 m.r1 v, dot3 m.r2 v, dot3 m.r3 v⟩

def transpose3 (m : Mat3) : Mat3 :=
  ⟨⟨m.r1.x, m.r2.x, m.r3.x⟩, ⟨m.r1.y, m.r2.y, m.r3.y⟩, ⟨m.r1.z, m.r2.z, m.r3.z⟩⟩

def det3 (m : Mat3) : ℚ :=
  m.r1.x * (m.r2.y * m.r3.z - m.r2.z * m.r3.y)
    - m.r1.y * (m.r2.x * m.r3.z - m.r2.z * m.r3.x)
    + m.r1.z * (m.r2.x * m.r3.y - m.r2.y * m.r3.x)

/-- Inverse of a 3×3 matrix by the adjugate formula (the exact value
`np.matrix.I` computes when the matrix is invertible). -/
def inv3 (m : Mat3) : Mat3 :=
  ⟨⟨(m.r2.y * m.r3.z - m.r2.z * m.r3.y) / det3 m,
    (m.r1.z * m.r3.y - m.r1.y * m.r3.z) / det3 m,
    (m.r1.y * m.r2.z - m.r1.z * m.r2.y) / det3 m⟩,
   ⟨(m.r2.z * m.r3.x - m.r2.x * m.r3.z) / det3 m,
    (m.r1.x * m.r3.z - m.r1.z * m.r3.x) / det3 m,
    (m.r1.z * m.r2.x - m.r1.x * m.r2.z) / det3 m⟩,
   ⟨(m.r2.x * m.r3.y - m.r2.y * m.r3.x) / det3 m,
    (m.r1.y * m.r3.x - m.r1.x * m.r3.y) / det3 m,
    (m.r1.x * m.r2.y - m.r1.y * m.r2.x) / det3 m⟩⟩

/-- `AtomCo.dir2cart`: `A = bases.T`, result row `i` = `A · data_i`. -/
def AtomCo.dir2cart (bases : Mat3) (data : List V3) : List V3 :=
  data.map (mulVec (transpose3 bases))

/-- `AtomCo.cart2dir`: `A = bases.T`, result row `i` = `A.I · data_i`;
raises (`none`) when `A` is singular. -/
def AtomCo.cart2dir (bases : Mat3) (data : List V3) : Option (List V3) :=
  let A := transpose3 bases
  if det3 A = 0 then none else some (data.map (mulVec (inv3 A)))

/-! ## Lattice adapter (`PosCar`)

`PosCar.load` reads a POSCAR/CONTCAR-like document; `verify` is invoked by
the constructor right after `load`, so the parse embedding runs both.
`AtomCo.get_poscar_content` writes it back.  The writer's fixed-width
`format` calls raise on shape mismatches (fewer than 3 basis components, a
coordinate row not exactly 3 wide, fewer than 3 flag entries, or an empty
`zip(*self.natoms)` unpack), hence its `Option` result. -/

structure PosCar where
  bases_const : ℚ
  bases : List (List ℚ)
  atoms : List Tok
  atoms_num : List ℤ
  ntot : ℤ
  data : List (List ℚ)
  tf : List Line
  totline : ℤ
deriving DecidableEq, Repr

/-- Default per-row constraint flags `['T', 'T', 'T']`. -/
def tttRow : Line := [Tok.str "T", Tok.str "T", Tok.str "T"]

/-- `content_list[7][0] in 'Ss'` (first character of the raw line; in the
token embedding, of its first token). -/
def lineStartsWithS : Line → Bool
  | Tok.str s :: _ =>
      match s.data.head? with
      | some c => c == 'S' || c == 's'
      | none => false
  | _ => false

/-- `PosCar.load` followed by the constructor's `verify()`. -/
def PosCar.load (doc : List Line) : Option PosCar := do
  let line1 ← doc.get? 1
  let bases_const ← lineFloat line1
  let bases ← npFloat2d ((doc.drop 2).take 3)
  let atoms ← doc.get? 5
  let numsLine ← doc.get? 6
  let atoms_num ← optMap tokInt numsLine
  let line7 ← doc.get? 7
  let data_begin : ℕ := if lineStartsWithS line7 then 9 else 8
  let ntot : ℤ := atoms_num.sum
  let dataLines := (doc.drop data_begin).take ntot.toNat
  let data ← npFloat2d (dataLines.map (fun l => l.take 3))
  let tf := dataLines.map (fun l => if 3 < l.length then l.drop 3 else tttRow)
  let _ ← AtomCo.verify data.length ntot
  some ⟨bases_const, bases, atoms, atoms_num, ntot, data, tf, (data_begin : ℤ) + ntot⟩

/-- One basis line on write: `"{:14.8f}"*3` (raises when fewer than 3
components; extra components are ignored). -/
def fmtBasisLine : List ℚ → Option Line
  | x :: y :: z :: _ => some [Tok.num (fmtF 8 x), Tok.num (fmtF 8 y), Tok.num (fmtF 8 z)]
  | _ => none

/-- One coordinate line on write: `("{:18.12f}"*3+"{:5s}"*3)` over the
concatenated coordinate row and flag row (raises unless the coordinate row
is exactly 3 wide and at least 3 flags follow). -/
def fmtDataLine : List ℚ → Line → Option Line
  | [x, y, z], a :: b :: c :: _ =>
      some [Tok.num (fmtF 12 x), Tok.num (fmtF 12 y), Tok.num (fmtF 12 z), a, b, c]
  | _, _ => none

def titleLine : Line := [Tok.str "Created", Tok.str "by", Tok.str "VASPy"]

def selDynLine : Line := [Tok.str "Selective", Tok.str "Dynamics"]

def directLine : Line := [Tok.str "Direct"]

/-- `AtomCo.get_poscar_content` for a loaded `PosCar` (which always has
`bases_const`, `bases` and `tf` set, so the `try/except` defaults are not
taken). -/
def AtomCo.get_poscar_content (p : PosCar) : Option (List Line) :=
  let natoms := p.atoms.zip p.atoms_num
  if natoms.isEmpty then none
  else do
    let basisLines ← optMap fmtBasisLine p.bases
    let dataLines ← optMap (fun r => fmtDataLine r.1 r.2) (p.data.zip p.tf)
    some (titleLine :: [Tok.num (fmtF 9 p.bases_const)] :: basisLines
      ++ [natoms.map Prod.fst, natoms.map (fun a => Tok.num ((a.2 : ℚ))),
          selDynLine, directLine]
      ++ dataLines)

/-! ## Constraint editing and grouping -/

/-- `idx_list = [0] + [sum(atoms_num[:i]) for i in range(1, len(atoms)+1)]`. -/
def idxList (atoms : List Tok) (atoms_num : List ℤ) : List ℤ :=
  0 :: (List.range atoms.length).map (fun i => (atoms_num.take (i + 1)).sum)

/-- Numpy slice assignment `tf[idx:nxt] = f(row)` applied row-wise. -/
def sliceMap (tf : List Line) (idx nxt : ℤ) (f : Line → Line) : List Line :=
  tf.mapIdx (fun i row => if idx ≤ (i : ℤ) ∧ (i : ℤ) < nxt then f row else row)

/-- Per-row effect of `constrain_atom` for a given `axis`:
`'x'/'X'`, `'y'/'Y'`, `'z'/'Z'` set one column, anything else sets the whole
row. -/
def constrainRow (axis : String) (toFlag : Tok) (row : Line) : Line :=
  if axis = "x" ∨ axis = "X" then row.set 0 toFlag
  else if axis = "y" ∨ axis = "Y" then row.set 1 toFlag
  else if axis = "z" ∨ axis = "Z" then row.set 2 toFlag
  else row.map (fun _ => toFlag)

/-- The `for ... zip(atoms, idx_list[:-1], idx_list[1:]) ... break` loop:
apply `f` to the row block of the first matching atom type. -/
def constrainLoop (atom : Tok) (f : Line → Line) :
    List (Tok × ℤ × ℤ) → List Line → List Line
  | [], tf => tf
  | (a, idx, nxt) :: rest, tf =>
      if a = atom then sliceMap tf idx nxt f else constrainLoop atom f rest tf

/-- `PosCar.constrain_atom(atom, to, axis)`: raises (`none`) unless
`to ∈ {'T','F'}`, otherwise rewrites the flags of the first matching atom
type's contiguous rows. -/
def PosCar.constrain_atom (p : PosCar) (atom : Tok) (toFlag : String) (axis : String) :
    Option PosCar :=
  let il := idxList p.atoms p.atoms_num
  if toFlag = "T" ∨ toFlag = "F" then
    some { p with
      tf := constrainLoop atom (constrainRow axis (Tok.str toFlag))
              (p.atoms.zip (il.zip il.tail)) p.tf }
  else none

/-- `data_list[idx:next_idx]` (python slice, clamped). -/
def pySlice (data : List (List ℚ)) (i j : ℤ) : List (List ℚ) :=
  (data.drop i.toNat).take (j.toNat - i.toNat)

/-- `dict.setdefault(k, v)`: insert only when the key is absent. -/
def setdefault (d : List (Tok × List (List ℚ))) (k : Tok) (v : List (List ℚ)) :
    List (Tok × List (List ℚ)) :=
  if (d.lookup k).isSome then d else d ++ [(k, v)]

/-- `AtomCo.get_atomco_dict(data)`: maps each atom type to
`data[idx:next_idx]` at the prefix-sum boundaries; performs no validation
of the row count. -/
def AtomCo.get_atomco_dict (atoms : List Tok) (atoms_num : List ℤ)
    (data : List (List ℚ)) : List (Tok × List (List ℚ)) :=
  let il := idxList atoms atoms_num
  (atoms.zip (il.zip il.tail)).foldl
    (fun d x => setdefault d x.1 (pySlice data x.2.1 x.2.2)) []

/-! ## Frame adapter (`XyzFile`) -/

structure XyzFileData where
  ntot : ℤ
  step : ℤ
  atoms : List Tok
  atoms_num : List ℕ
  data : List (List ℚ)
deriving DecidableEq, Repr

/-- First-seen deduplication (`for atom in atoms_list: if atom not in atoms`). -/
def firstSeen (l : List Tok) : List Tok :=
  l.foldl (fun acc a => if a ∈ acc then acc else acc ++ [a]) []

/-- `XyzFile.load` followed by the constructor's `verify()`.  The 2-D
indexing `data_array[:, 0]` / `[:, 1:]` requires a nonempty rectangular
array with at least one column; the remaining columns must convert to
float. -/
def XyzFile.load (doc : List Line) : Option XyzFileData := do
  let l0 ← doc.get? 0
  let ntot ← lineInt l0
  let l1 ← doc.get? 1
  let lastTok ← l1.getLast?
  let step ← tokInt lastTok
  let dataLines := doc.drop 2
  if dataLines.isEmpty then none
  else if allSameLength dataLines then do
    let atoms_list ← optMap (fun l => l.head?) dataLines
    let data ← optMap (fun l => optMap tokFloat l) (dataLines.map (fun l => l.drop 1))
    let atoms := firstSeen atoms_list
    let atoms_num := atoms.map (fun a => atoms_list.count a)
    let _ ← AtomCo.verify data.length ntot
    some ⟨ntot, step, atoms, atoms_num, data⟩
  else none

/-- The Frame-format example document
`"2\nSTEP =    3\nH   0.0 0.0 0.0\nO   1.0 0.0 0.0\n"` in the token
embedding. -/
def xyzExampleDoc : List Line :=
  [[Tok.num 2],
   [Tok.str "STEP", Tok.str "=", Tok.num 3],
   [Tok.str "H", Tok.num 0, Tok.num 0, Tok.num 0],
   [Tok.str "O", Tok.num 1, Tok.num 0, Tok.num 0]]

/-! ## Trajectory adapter (`XdatCar`) -/

/-- `'=' in prompt` (some token of the prompt line contains `'='`). -/
def lineHasEq (l : Line) : Bool :=
  l.any (fun t => match t with
    | Tok.str s => s.data.contains '='
    | Tok.num _ => false)

/-- `int(prompt.split('=')[-1])`: the text after the last `'='`.  In the
token embedding this is the last token, itself split at `'='` when the
digits are glued to it. -/
def parseStep (l : Line) : Option ℤ :=
  match l.getLast? with
  | some (Tok.num q) => if q.den = 1 then some q.num else none
  | some (Tok.str s) => ((s.splitOn "=").getLast?).bind (fun r => r.toInt?)
  | none => none

/-- The body of `XdatCar.__iter__` after the 7 header lines have been
skipped and the first prompt read: while the prompt contains `'='`, parse
the step, read exactly `ntot` coordinate rows, read the next prompt, and
yield.  A failing `int()` or float conversion raises (`none`); a prompt
without `'='` (including the empty line returned at EOF) ends the
sequence. -/
def XdatCar.iterFrames (ntot : ℕ) (prompt : Line) (rest : List Line) :
    Option (List (ℤ × List (List ℚ))) :=
  if lineHasEq prompt then do
    let step ← parseStep prompt
    let data ← optMap (fun l => optMap tokFloat l) (rest.take ntot)
    match h : rest.drop ntot with
    | [] => some [(step, data)]
    | p2 :: rest2 => do
        let tail ← XdatCar.iterFrames ntot p2 rest2
        some ((step, data) :: tail)
  else some []
termination_by rest.length
decreasing_by
  have hlen := congrArg List.length h
  simp [List.length_drop] at hlen
  omega

/-- `XdatCar.__iter__` over a whole document: skip the 7 header lines
(`info_nline`), read the first prompt (EOF reads as an empty line), then
iterate. -/
def XdatCar.iter (ntot : ℕ) (doc : List Line) : Option (List (ℤ × List (List ℚ))) :=
  match doc.drop 7 with
  | [] => some []
  | p :: r => XdatCar.iterFrames ntot p r

/-- On-disk encoding of one trajectory frame: its prompt line followed by
its numeric coordinate rows. -/
def encodeFrame (fr : ℤ × Line × List (List ℚ)) : List Line :=
  fr.2.1 :: fr.2.2.map (fun row => row.map Tok.num)

/-! ## Crystal-table adapter (`CifFile`) -/

/-- A dynamically set attribute value: the six cell keys are coerced with
`float()`, every other key keeps the raw text (its token list). -/
inductive CifVal where
  | fnum (q : ℚ)
  | text (l : Line)
deriving DecidableEq, Repr

def floatCandidates : List String :=
  ["cell_length_a", "cell_length_b", "cell_length_c",
   "cell_angle_alpha", "cell_angle_beta", "cell_angle_gamma"]

/-- `setattr`: overwrite any previous value for the key. -/
def attrSet (d : List (String × CifVal)) (k : String) (v : CifVal) :
    List (String × CifVal) :=
  (d.filter (fun p => p.1 ≠ k)) ++ [(k, v)]

/-- `line.startswith('_')` on the stripped line (first token). -/
def lineStartsWithUnderscore : Line → Bool
  | Tok.str s :: _ => s.data.head? == some '_'
  | _ => false

/-- The regex `^_(\w+)(?:\s+)(.+)$` on a stripped attribute line: a
word-character name after the underscore, whitespace, then a nonempty
value. -/
def parseAttrLine : Line → Option (String × Line)
  | Tok.str s :: rest =>
      if s.data.head? == some '_' ∧ rest ≠ [] ∧ (s.drop 1) ≠ "" ∧
          (s.drop 1).data.all (fun c => c.isAlphanum || c == '_')
      then some (s.drop 1, rest) else none
  | _ => none

/-- One line of the attribute segment: non-`_` lines and regex non-matches
are skipped silently; a float-candidate key whose value `float()` cannot
parse raises (`none`). -/
def cifAttrStep (acc : List (String × CifVal)) (l : Line) :
    Option (List (String × CifVal)) :=
  if lineStartsWithUnderscore l then
    match parseAttrLine l with
    | none => some acc
    | some (name, value) =>
        if name ∈ floatCandidates then
          match value with
          | [Tok.num q] => some (attrSet acc name (CifVal.fnum q))
          | _ => none
        else some (attrSet acc name (CifVal.text value))
  else some acc

def cifAttrs : List Line → List (String × CifVal) → Option (List (String × CifVal))
  | [], acc => some acc
  | l :: ls, acc =>
      match cifAttrStep acc l with
      | none => none
      | some acc2 => cifAttrs ls acc2

/-- `line[1:]` on a stripped `_`-prefixed line (drop the underscore from
the first token). -/
def stripFirstChar : Line → Line
  | Tok.str s :: rest => Tok.str (s.drop 1) :: rest
  | l => l

/-- One atom-site row:
`atom_name, _, x, y, z, _, _, atom_type = line2list(line, dtype=str)` —
exactly 8 tokens, with `float()` applied to columns 2–4. -/
def cifRow : Line → Option (Tok × (ℚ × ℚ × ℚ) × Tok)
  | [n, _, x, y, z, _, _, t] => do
      let xq ← tokFloat x
      let yq ← tokFloat y
      let zq ← tokFloat z
      some (n, (xq, yq, zq), t)
  | _ => none

/-- The atom-site loop over the last segment: `_`-lines collect titles,
blank lines are skipped, anything else must unpack into an 8-column row. -/
def cifBody : List Line → Option (List Line × List (Tok × (ℚ × ℚ × ℚ) × Tok))
  | [] => some ([], [])
  | l :: ls =>
      if lineStartsWithUnderscore l then do
        let (ts, rs) ← cifBody ls
        some (stripFirstChar l :: ts, rs)
      else if l.isEmpty then cifBody ls
      else do
        let row ← cifRow l
        let (ts, rs) ← cifBody ls
        some (ts, row :: rs)

/-- `line.startswith('loop_')`. -/
def lineStartsWithLoop : Line → Bool
  | Tok.str s :: _ => "loop_".data.isPrefixOf s.data
  | _ => false

/-- Split the document at `loop_` lines:
`[(0, i₁), (i₁+1, i₂), ..., (iₖ+1, n)]` index pairs into slices. -/
def cifGroups (lines : List Line) : List (List Line) :=
  let loopIdx := (lines.enum.filter (fun p => lineStartsWithLoop p.2)).map
    (fun p => p.1)
  let startIdx := 0 :: loopIdx.map (fun i => i + 1)
  let endIdx := loopIdx ++ [lines.length]
  (startIdx.zip endIdx).map (fun se => (lines.take se.2).drop se.1)

structure CifFileData where
  attrs : List (String × CifVal)
  titles : List Line
  data : List (List ℚ)
  atom_names : List Tok
  atoms : List Tok
  natoms : List ℕ
  ntot : ℕ
deriving DecidableEq, Repr

/-- `CifFile.load`: attributes from the first `loop_`-delimited segment,
the atom-site table from the last one; `atoms` is `list(set(atom_types))`
(an unspecified order in the source; deduplicated in first-seen order
here), `ntot = len(atom_names)`. -/
def CifFile.load (doc : List Line) : Option CifFileData := do
  let groups := cifGroups doc
  let g0 ← groups.head?
  let attrs ← cifAttrs g0 []
  let glast ← groups.getLast?
  let body ← cifBody glast
  let rows := body.2
  let data := rows.map (fun r => [r.2.1.1, r.2.1.2.1, r.2.1.2.2])
  let atom_names := rows.map (fun r => r.1)
  let atom_types := rows.map (fun r => r.2.2)
  let atoms := firstSeen atom_types
  let natoms := atoms.map (fun a => atom_types.count a)
  some ⟨attrs, body.1, data, atom_names, atoms, natoms, atom_names.length⟩

section RatEval

attribute [local semireducible] Rat.mul Rat.add Rat.sub Rat.inv Rat.ofScientific

lemma det3_transpose3 (m : Mat3) : det3 (transpose3 m) = det3 m := by
  obtain ⟨⟨a, b, c⟩, ⟨d, e, f⟩, ⟨g, h, i⟩⟩ := m
  simp only [det3, transpose3]
  ring

lemma inv3_mulVec (A : Mat3) (v : V3) (hA : det3 A ≠ 0) :
    mulVec (inv3 A) (mulVec A v) = v := by
  obtain ⟨⟨a, b, c⟩, ⟨d, e, f⟩, ⟨g, h, i⟩⟩ := A
  obtain ⟨x, y, z⟩ := v
  simp only [det3] at hA
  simp only [mulVec, inv3, dot3, det3, V3.mk.injEq]
  refine ⟨?_, ?_, ?_⟩ <;> field_simp <;> ring

/-- C2: for every invertible basis `B` and every coordinate list `D`,
`cart2dir (B, dir2cart (B, D))` succeeds and returns exactly `D`
(exact equality, hence equality within any floating tolerance);
`dir2cart` computes `basisᵀ · row` per row and `cart2dir` inverts it. -/
theorem cart2dir_dir2cart_id (B : Mat3) (D : List V3) (hB : det3 B ≠ 0) :
    AtomCo.cart2dir B (AtomCo.dir2cart B D) = some D := by
  have hA : det3 (transpose3 B) ≠ 0 := by rw [det3_transpose3]; exact hB
  unfold AtomCo.cart2dir AtomCo.dir2cart
  simp only [hA, if_neg, if_false, List.map_map, Option.some.injEq]
  have : ∀ v : V3, (mulVec (inv3 (transpose3 B)) ∘ mulVec (transpose3 B)) v = v := by
    intro v
    exact inv3_mulVec (transpose3 B) v hA
  calc D.map (mulVec (inv3 (transpose3 B)) ∘ mulVec (transpose3 B))
      = D.map id := List.map_congr_left (fun v _ => this v)
    _ = D := List.map_id D

/-- Witness for C2 at a concrete invertible basis and coordinate row. -/
theorem cart2dir_dir2cart_id_witness :
    det3 ⟨⟨2, 0, 0⟩, ⟨0, 1, 0⟩, ⟨1, 0, 1⟩⟩ ≠ 0 ∧
      AtomCo.cart2dir ⟨⟨2, 0, 0⟩, ⟨0, 1, 0⟩, ⟨1, 0, 1⟩⟩
        (AtomCo.dir2cart ⟨⟨2, 0, 0⟩, ⟨0, 1, 0⟩, ⟨1, 0, 1⟩⟩ [⟨1, 2, 3⟩]) =
        some [⟨1, 2, 3⟩] :=
  ⟨by decide, cart2dir_dir2cart_id _ [⟨1, 2, 3⟩] (by decide)⟩

/-- C3: `cart2dir` on every non-invertible basis (determinant zero, in
particular a basis with a zero row) fails rather than returning a result. -/
theorem cart2dir_singular_none (B : Mat3) (D : List V3) (hB : det3 B = 0) :
    AtomCo.cart2dir B D = none := by
  have hA : det3 (transpose3 B) = 0 := by rw [det3_transpose3]; exact hB
  unfold AtomCo.cart2dir
  simp [hA]

/-- Witness for C3 at a basis whose third row is zero. -/
theorem cart2dir_singular_none_witness :
    det3 ⟨⟨1, 0, 0⟩, ⟨0, 1, 0⟩, ⟨0, 0, 0⟩⟩ = 0 ∧
      AtomCo.cart2dir ⟨⟨1, 0, 0⟩, ⟨0, 1, 0⟩, ⟨0, 0, 0⟩⟩ [⟨1, 2, 3⟩] = none :=
  ⟨by decide, cart2dir_singular_none _ [⟨1, 2, 3⟩] (by decide)⟩

/-- C5: on a system with `atom_types = ["Pt", "O"]`, `atom_counts = [2, 1]`,
`constrain_atom("O", 'F', 'all')` sets row 2's flag triple to
`('F','F','F')` and leaves rows 0 and 1 and all coordinates unchanged. -/
theorem constrain_atom_O_all_fixed (bc : ℚ) (bs d : List (List ℚ))
    (nt tl : ℤ) (t0 t1 : Line) (a b c : Tok) :
    PosCar.constrain_atom
      ⟨bc, bs, [Tok.str "Pt", Tok.str "O"], [2, 1], nt, d, [t0, t1, [a, b, c]], tl⟩
      (Tok.str "O") "F" "all"
      = some ⟨bc, bs, [Tok.str "Pt", Tok.str "O"], [2, 1], nt, d,
          [t0, t1, [Tok.str "F", Tok.str "F", Tok.str "F"]], tl⟩ := rfl

lemma constrainLoop_no_match (atom : Tok) (f : Line → Line)
    (l : List (Tok × ℤ × ℤ)) (hm : ∀ x ∈ l, x.1 ≠ atom) (tf : List Line) :
    constrainLoop atom f l tf = tf := by
  induction l with
  | nil => rfl
  | cons hd tl ih =>
      obtain ⟨a, idx, nxt⟩ := hd
      have ha : a ≠ atom := hm (a, idx, nxt) (List.mem_cons_self _ _)
      simp only [constrainLoop, if_neg ha]
      exact ih (fun x hx => hm x (List.mem_cons_of_mem _ hx))

/-- C6: `constrain_atom` fails exactly when the flag is outside
`{'T','F'}` (returning no updated state), and with a valid flag and an
atom type not present in the system it succeeds as a silent no-op. -/
theorem constrain_atom_flag_iff (p : PosCar) (atom : Tok) (toFlag axis : String) :
    (PosCar.constrain_atom p atom toFlag axis = none ↔
        ¬(toFlag = "T" ∨ toFlag = "F")) ∧
      ((toFlag = "T" ∨ toFlag = "F") → atom ∉ p.atoms →
        PosCar.constrain_atom p atom toFlag axis = some p) := by
  constructor
  · unfold PosCar.constrain_atom
    by_cases h : toFlag = "T" ∨ toFlag = "F" <;> simp [h]
  · intro hv hmem
    unfold PosCar.constrain_atom
    rw [if_pos hv]
    have hloop : constrainLoop atom (constrainRow axis (Tok.str toFlag))
        (p.atoms.zip ((idxList p.atoms p.atoms_num).zip
          (idxList p.atoms p.atoms_num).tail)) p.tf = p.tf := by
      refine constrainLoop_no_match _ _ _ (fun x hx => ?_) _
      obtain ⟨h1, _⟩ := List.of_mem_zip hx
      exact fun hcon => hmem (hcon ▸ h1)
    rw [hloop]

/-- Sample system used by the concrete witnesses. -/
def samplePos : PosCar :=
  ⟨1, [[1, 0, 0], [0, 1, 0], [0, 0, 1]], [Tok.str "Pt", Tok.str "O"], [2, 1], 3,
   [[0, 0, 0], [0, 0, 1], [1, 1, 1]], [tttRow, tttRow, tttRow], 11⟩

/-- Witness for C6: an invalid flag fails, and a valid flag with an unknown
atom type is a no-op on a concrete system. -/
theorem constrain_atom_flag_iff_witness :
    PosCar.constrain_atom samplePos (Tok.str "X") "Q" "all" = none ∧
      PosCar.constrain_atom samplePos (Tok.str "X") "F" "all" = some samplePos :=
  ⟨(constrain_atom_flag_iff samplePos (Tok.str "X") "Q" "all").1.mpr (by decide),
   (constrain_atom_flag_iff samplePos (Tok.str "X") "F" "all").2 (Or.inr rfl)
     (by decide)⟩

/-- C4 counterexample: grouping a 1-row sequence on a system whose
`total_count` is 2 does not fail — it returns a normal mapping (with a
truncated slice for the second type). -/
theorem get_atomco_dict_no_length_check :
    AtomCo.get_atomco_dict [Tok.str "A", Tok.str "B"] [1, 1] [[0, 0, 0]] =
      [(Tok.str "A", [[0, 0, 0]]), (Tok.str "B", [])] := rfl

lemma lookup_append_of_none {β : Type} (l1 l2 : List (Tok × β)) (k : Tok)
    (h : l1.lookup k = none) : (l1 ++ l2).lookup k = l2.lookup k := by
  induction l1 with
  | nil => rfl
  | cons hd tl ih =>
      obtain ⟨a, b⟩ := hd
      by_cases hk : k == a
      · simp [List.lookup, hk] at h
      · simp only [List.cons_append, List.lookup, hk] at h ⊢
        exact ih h

lemma foldl_setdefault_eq (data : List (List ℚ)) (l : List (Tok × ℤ × ℤ))
    (acc : List (Tok × List (List ℚ)))
    (hnd : (l.map (fun x => x.1)).Nodup)
    (hdisj : ∀ x ∈ l, acc.lookup x.1 = none) :
    l.foldl (fun d x => setdefault d x.1 (pySlice data x.2.1 x.2.2)) acc
      = acc ++ l.map (fun x => (x.1, pySlice data x.2.1 x.2.2)) := by
  induction l generalizing acc with
  | nil => simp
  | cons hd tl ih =>
      simp only [List.foldl_cons, List.map_cons]
      have hsd : setdefault acc hd.1 (pySlice data hd.2.1 hd.2.2)
          = acc ++ [(hd.1, pySlice data hd.2.1 hd.2.2)] := by
        unfold setdefault
        rw [hdisj hd (List.mem_cons_self _ _)]
        rfl
      rw [hsd, ih _ (by simpa using hnd.of_cons) ?_, List.append_assoc]
      · rfl
      · intro x hx
        have hxk : x.1 ≠ hd.1 := by
          intro hcon
          have : hd.1 ∈ tl.map (fun y => y.1) :=
            hcon ▸ List.mem_map_of_mem (fun y => y.1) hx
          exact (List.nodup_cons.1 (by simpa using hnd)).1 this
        rw [lookup_append_of_none _ _ _ (hdisj x (List.mem_cons_of_mem _ hx))]
        simp [List.lookup, beq_eq_false_iff_ne.2 hxk]

lemma lookup_map_keyed {β : Type} (l : List (Tok × β))
    (hnd : (l.map (fun x => x.1)).Nodup) (i : ℕ) (hi : i < l.length) :
    l.lookup (l.get ⟨i, hi⟩).1 = some (l.get ⟨i, hi⟩).2 := by
  induction l generalizing i with
  | nil => exact absurd hi (by simp)
  | cons hd tl ih =>
      cases i with
      | zero => simp [List.lookup]
      | succ j =>
          have hj : j < tl.length := by simpa using hi
          have hne : (tl.get ⟨j, hj⟩).1 ≠ hd.1 := by
            intro hcon
            have : hd.1 ∈ tl.map (fun y => y.1) :=
              hcon ▸ List.mem_map_of_mem (fun y => y.1) (tl.get_mem _ _)
            exact (List.nodup_cons.1 (by simpa using hnd)).1 this
          simp only [List.get_cons_succ, List.lookup,
            beq_eq_false_iff_ne.2 hne]
          exact ih (by simpa using hnd.of_cons) j hj

lemma idxList_getElem (atoms : List Tok) (nums : List ℤ) (i : ℕ)
    (hi : i < (idxList atoms nums).length) :
    (idxList atoms nums)[i] = (nums.take i).sum := by
  cases i with
  | zero => simp [idxList]
  | succ j =>
      have hj : j < atoms.length := by
        simp only [idxList, List.length_cons, List.length_map,
          List.length_range] at hi
        omega
      simp [idxList, List.getElem_cons_succ, hj]

/-- C4 (amended): `get_atomco_dict` performs no row-count validation — for
every row sequence, matching `total_count` or not, it returns the mapping
from each atom-type label to the (clamped) slice of rows between the
prefix sums of `atom_counts`. -/
theorem get_atomco_dict_lookup (atoms : List Tok) (nums : List ℤ)
    (data : List (List ℚ)) (hnd : atoms.Nodup) (i : ℕ) (hi : i < atoms.length) :
    (AtomCo.get_atomco_dict atoms nums data).lookup atoms[i] =
      some (pySlice data ((nums.take i).sum) ((nums.take (i + 1)).sum)) := by
  unfold AtomCo.get_atomco_dict
  have hlen_il : (idxList atoms nums).length = atoms.length + 1 := by
    simp [idxList]
  have hlen_tail : (idxList atoms nums).tail.length = atoms.length := by
    simp [idxList]
  have hlen_zt : ((idxList atoms nums).zip (idxList atoms nums).tail).length
      = atoms.length := by
    rw [List.length_zip, hlen_il, hlen_tail]
    omega
  have hlen_zp : (atoms.zip ((idxList atoms nums).zip
      (idxList atoms nums).tail)).length = atoms.length := by
    rw [List.length_zip, hlen_zt]
    omega
  have hfst : (atoms.zip ((idxList atoms nums).zip
      (idxList atoms nums).tail)).map (fun x => x.1) = atoms := by
    have := List.map_fst_zip atoms
      ((idxList atoms nums).zip (idxList atoms nums).tail) (by omega)
    simpa [Prod.fst] using this
  rw [foldl_setdefault_eq data _ [] (by rw [hfst]; exact hnd) (by simp)]
  rw [List.nil_append]
  have hi' : i < (atoms.zip ((idxList atoms nums).zip
      (idxList atoms nums).tail)).length := by omega
  have hkey : ((atoms.zip ((idxList atoms nums).zip
      (idxList atoms nums).tail)).map
        (fun x => (x.1, pySlice data x.2.1 x.2.2))).get
      ⟨i, by simpa using hi'⟩
      = (atoms[i], pySlice data ((nums.take i).sum) ((nums.take (i + 1)).sum)) := by
    have hi2 : i < ((idxList atoms nums).zip (idxList atoms nums).tail).length := by
      rw [hlen_zt]
      exact hi
    have hi3 : i < (idxList atoms nums).length := by omega
    have hi4 : i < (idxList atoms nums).tail.length := by
      rw [hlen_tail]
      exact hi
    have hi5 : i + 1 < (idxList atoms nums).length := by omega
    have hz : (atoms.zip ((idxList atoms nums).zip (idxList atoms nums).tail))[i]
        = (atoms[i], ((idxList atoms nums).zip (idxList atoms nums).tail)[i]) :=
      List.getElem_zip
    have hz2 : ((idxList atoms nums).zip (idxList atoms nums).tail)[i]
        = ((idxList atoms nums)[i], (idxList atoms nums).tail[i]) :=
      List.getElem_zip
    have e1 : (idxList atoms nums)[i] = (nums.take i).sum :=
      idxList_getElem atoms nums i hi3
    have e2 : (idxList atoms nums).tail[i] = (nums.take (i + 1)).sum := by
      rw [List.getElem_tail]
      exact idxList_getElem atoms nums (i + 1) hi5
    simp only [List.get_eq_getElem, List.getElem_map, hz, hz2, e1, e2]
  have hnd2 : (((atoms.zip ((idxList atoms nums).zip (idxList atoms nums).tail)).map
      (fun x => (x.1, pySlice data x.2.1 x.2.2))).map (fun x => x.1)).Nodup := by
    rw [List.map_map]
    have hcomp : ((fun x : Tok × List (List ℚ) => x.1) ∘
        (fun x : Tok × ℤ × ℤ => (x.1, pySlice data x.2.1 x.2.2)))
        = (fun x : Tok × ℤ × ℤ => x.1) := rfl
    rw [hcomp, hfst]
    exact hnd
  have := lookup_map_keyed
    ((atoms.zip ((idxList atoms nums).zip (idxList atoms nums).tail)).map
      (fun x => (x.1, pySlice data x.2.1 x.2.2)))
    hnd2 i (by simpa using hi')
  rw [hkey] at this
  exact this

/-- Witness for C4's amended theorem on a concrete matching-length input. -/
theorem get_atomco_dict_lookup_witness :
    (AtomCo.get_atomco_dict [Tok.str "A", Tok.str "B"] [2, 1]
        [[1, 1, 1], [2, 2, 2], [3, 3, 3]]).lookup (Tok.str "B")
      = some (pySlice [[1, 1, 1], [2, 2, 2], [3, 3, 3]] 2 3) :=
  get_atomco_dict_lookup [Tok.str "A", Tok.str "B"] [2, 1]
    [[1, 1, 1], [2, 2, 2], [3, 3, 3]] (by decide) 1 (by decide)

/-- C9: any axis value outside `'x'/'X'/'y'/'Y'/'z'/'Z'` (not only the
documented `'all'`) falls through to the all-axes branch: the edit behaves
exactly as with `axis = 'all'`. -/
theorem constrain_atom_unknown_axis (p : PosCar) (atom : Tok) (toFlag axis : String)
    (hax : axis ∉ ["x", "X", "y", "Y", "z", "Z"]) :
    PosCar.constrain_atom p atom toFlag axis =
      PosCar.constrain_atom p atom toFlag "all" := by
  have hx : axis ≠ "x" := fun h => hax (by rw [h]; decide)
  have hX : axis ≠ "X" := fun h => hax (by rw [h]; decide)
  have hy : axis ≠ "y" := fun h => hax (by rw [h]; decide)
  have hY : axis ≠ "Y" := fun h => hax (by rw [h]; decide)
  have hz : axis ≠ "z" := fun h => hax (by rw [h]; decide)
  have hZ : axis ≠ "Z" := fun h => hax (by rw [h]; decide)
  have hrow : constrainRow axis (Tok.str toFlag) = constrainRow "all" (Tok.str toFlag) := by
    funext row
    simp [constrainRow, hx, hX, hy, hY, hz, hZ]
  unfold PosCar.constrain_atom
  rw [hrow]

/-- Witness for C9: `axis = 'q'` behaves as `'all'` on a concrete system. -/
theorem constrain_atom_unknown_axis_witness :
    PosCar.constrain_atom samplePos (Tok.str "Pt") "F" "q" =
      PosCar.constrain_atom samplePos (Tok.str "Pt") "F" "all" :=
  constrain_atom_unknown_axis samplePos (Tok.str "Pt") "F" "q" (by decide)

/-- C7: the Frame-format example parses to `total_count = 2`,
`atom_types = ["H", "O"]` in first-seen order, `atom_counts = [1, 1]` and
`frame_index = 3`. -/
theorem xyz_frame_example :
    XyzFile.load xyzExampleDoc =
      some ⟨2, 3, [Tok.str "H", Tok.str "O"], [1, 1], [[0, 0, 0], [1, 0, 0]]⟩ := by
  decide

lemma optMap_tokFloat_encode (rows : List (List ℚ)) :
    optMap (fun l => optMap tokFloat l) (rows.map (fun row => row.map Tok.num))
      = some rows := by
  induction rows with
  | nil => rfl
  | cons r rs ih =>
      have hr : optMap tokFloat (r.map Tok.num) = some r := by
        induction r with
        | nil => rfl
        | cons x xs ihx => simp [optMap, tokFloat, ihx]
      simp [optMap, hr, ih]

/-- `True` iff the line that follows the encoded frames (the next prompt
read by the generator, the empty EOF line when there is none) lacks
`'='`. -/
def promptEnds (tail : List Line) : Bool :=
  match tail.head? with
  | some t => !lineHasEq t
  | none => true

lemma iterFrames_encode (ntot : ℕ) (frames : List (ℤ × Line × List (List ℚ)))
    (hfr : ∀ fr ∈ frames, lineHasEq fr.2.1 = true ∧ parseStep fr.2.1 = some fr.1 ∧
      fr.2.2.length = ntot)
    (tail : List Line) (ht : promptEnds tail = true) :
    ∀ p r, p :: r = frames.flatMap encodeFrame ++ tail →
      XdatCar.iterFrames ntot p r = some (frames.map (fun fr => (fr.1, fr.2.2))) := by
  induction frames with
  | nil =>
      intro p r hpr
      simp only [List.flatMap_nil, List.nil_append] at hpr
      have hp : lineHasEq p = false := by
        have : tail.head? = some p := by rw [← hpr]; rfl
        simpa [promptEnds, this] using ht
      rw [XdatCar.iterFrames, if_neg (by simp [hp])]
      rfl
  | cons fr frames ih =>
      intro p r hpr
      obtain ⟨h1, h2, h3⟩ := hfr fr (List.mem_cons_self _ _)
      simp only [List.flatMap_cons, encodeFrame, List.cons_append,
        List.append_assoc] at hpr
      obtain ⟨hp, hr⟩ := List.cons.inj hpr
      have hlen : (fr.2.2.map (fun row => row.map Tok.num)).length = ntot := by
        simpa using h3
      have htake : r.take ntot = fr.2.2.map (fun row => row.map Tok.num) := by
        rw [hr]; exact List.take_left' hlen
      have hdrop : r.drop ntot = frames.flatMap encodeFrame ++ tail := by
        rw [hr]; exact List.drop_left' hlen
      rw [XdatCar.iterFrames, if_pos (by rw [hp]; exact h1)]
      rw [hp, h2]
      simp only [Option.some_bind, htake, optMap_tokFloat_encode]
      split
      · next heq =>
          rw [hdrop] at heq
          obtain ⟨hfm, htl⟩ := List.append_eq_nil.1 heq
          have hfnil : frames = [] := by
            cases frames with
            | nil => rfl
            | cons g gs => simp [encodeFrame] at hfm
          subst hfnil
          simp
      · next p2 rest2 heq =>
          rw [hdrop] at heq
          rw [ih (fun x hx => hfr x (List.mem_cons_of_mem _ hx)) p2 rest2 heq.symm]
          simp

/-- C8: for every 7-line header, every list of frames (each a prompt line
containing `'='` with a parsable step and exactly `total_count` coordinate
rows) and every trailing content whose first line lacks `'='` (or which is
empty, i.e. EOF), iterating yields exactly one `(frame_index, block)` pair
per frame, in order, and terminates without error at the first prompt
without `'='`. -/
theorem xdatcar_iter_frames (ntot : ℕ) (header : List Line)
    (hh : header.length = 7) (frames : List (ℤ × Line × List (List ℚ)))
    (hfr : ∀ fr ∈ frames, lineHasEq fr.2.1 = true ∧ parseStep fr.2.1 = some fr.1 ∧
      fr.2.2.length = ntot)
    (tail : List Line) (ht : promptEnds tail = true) :
    XdatCar.iter ntot (header ++ (frames.flatMap encodeFrame ++ tail))
      = some (frames.map (fun fr => (fr.1, fr.2.2))) := by
  unfold XdatCar.iter
  rw [← hh, List.drop_left]
  split
  · next heq =>
      obtain ⟨hfm, htl⟩ := List.append_eq_nil.1 heq
      have hfnil : frames = [] := by
        cases frames with
        | nil => rfl
        | cons g gs => simp [encodeFrame] at hfm
      subst hfnil
      rfl
  · next p r heq =>
      exact iterFrames_encode ntot frames hfr tail ht p r heq.symm

/-- Witness for C8: a one-frame trajectory with `total_count = 1` whose
trailing line has no `'='`. -/
theorem xdatcar_iter_frames_witness :
    XdatCar.iter 1
      (([[Tok.str "Ti"], [Tok.num 1], [Tok.num 1, Tok.num 0, Tok.num 0],
         [Tok.num 0, Tok.num 1, Tok.num 0], [Tok.num 0, Tok.num 0, Tok.num 1],
         [Tok.str "Ti"], [Tok.num 1]] : List Line) ++
       (([(3, [Tok.str "Direct", Tok.str "configuration=", Tok.num 3],
            [[0, 0, 0]])] : List (ℤ × Line × List (List ℚ))).flatMap encodeFrame ++
        [[Tok.str "END"]]))
      = some [(3, [[0, 0, 0]])] :=
  xdatcar_iter_frames 1 _ (by decide) _ (by decide) _ (by decide)

/-- C10: after every successful Crystal-table parse, `ntot` equals the
number of atom-table rows read, `len(data) == len(atom_names) == ntot`
holds by construction, and a subsequent `verify()` succeeds. -/
theorem cif_load_counts (doc : List Line) (c : CifFileData)
    (h : CifFile.load doc = some c) :
    c.ntot = c.atom_names.length ∧ c.data.length = c.ntot ∧
      AtomCo.verify c.data.length (c.ntot : ℤ) = some () := by
  rw [CifFile.load] at h
  simp only [Option.bind_eq_bind', Option.bind_eq_some, Option.some.injEq] at h
  obtain ⟨g0, hg0, attrs, hattrs, glast, hglast, body, hbody, hc⟩ := h
  subst hc
  refine ⟨by simp, by simp, ?_⟩
  simp [AtomCo.verify]

/-- A small Crystal-table document: one attribute line, one `loop_`
delimiter, one 8-column atom-site row. -/
def cifExampleDoc : List Line :=
  [[Tok.str "_cell_length_a", Tok.num 10],
   [Tok.str "loop_"],
   [Tok.str "O1", Tok.str "O", Tok.num 0, Tok.num 0, Tok.num 0,
    Tok.num 1, Tok.num 1, Tok.str "O"]]

/-- The system `cifExampleDoc` parses to. -/
def cifExampleParsed : CifFileData :=
  ⟨[("cell_length_a", CifVal.fnum 10)], [], [[0, 0, 0]],
   [Tok.str "O1"], [Tok.str "O"], [1], 1⟩

/-- Witness for C10 on a concrete document. -/
theorem cif_load_counts_witness :
    CifFile.load cifExampleDoc = some cifExampleParsed ∧
      (cifExampleParsed.ntot = cifExampleParsed.atom_names.length ∧
        cifExampleParsed.data.length = cifExampleParsed.ntot ∧
        AtomCo.verify cifExampleParsed.data.length (cifExampleParsed.ntot : ℤ)
          = some ()) :=
  ⟨by decide, cif_load_counts cifExampleDoc cifExampleParsed (by decide)⟩

lemma optMap_congr_some {α β : Type} (f : α → Option β) (g : α → β) (l : List α)
    (h : ∀ a ∈ l, f a = some (g a)) : optMap f l = some (l.map g) := by
  induction l with
  | nil => rfl
  | cons a l ih =>
      simp only [optMap, h a (List.mem_cons_self _ _),
        ih (fun x hx => h x (List.mem_cons_of_mem _ hx)), Option.bind_eq_bind',
        Option.some_bind, List.map_cons]

lemma optMap_forall₂ {α β : Type} (f : α → Option β) (l : List α) (l2 : List β)
    (h : optMap f l = some l2) : List.Forall₂ (fun a b => f a = some b) l l2 := by
  induction l generalizing l2 with
  | nil =>
      simp only [optMap, Option.some.injEq] at h
      subst h
      exact List.Forall₂.nil
  | cons a l ih =>
      simp only [optMap, Option.bind_eq_bind', Option.bind_eq_some,
        Option.some.injEq] at h
      obtain ⟨b, hb, bs, hbs, hl2⟩ := h
      subst hl2
      exact List.Forall₂.cons hb (ih bs hbs)

lemma mem_of_forall₂_right {α β : Type} {R : α → β → Prop} {l : List α}
    {l2 : List β} (h : List.Forall₂ R l l2) :
    ∀ b ∈ l2, ∃ a ∈ l, R a b := by
  induction h with
  | nil => intro b hb; exact absurd hb (by simp)
  | cons hr hrest ih =>
      intro b hb
      rcases List.mem_cons.1 hb with hb | hb
      · exact ⟨_, List.mem_cons_self _ _, hb ▸ hr⟩
      · obtain ⟨a, ha, har⟩ := ih b hb
        exact ⟨a, List.mem_cons_of_mem _ ha, har⟩

lemma allSameLength_of {n : ℕ} (rows : List Line)
    (h : ∀ l ∈ rows, l.length = n) : allSameLength rows = true := by
  cases rows with
  | nil => rfl
  | cons l ls =>
      simp only [allSameLength, List.all_eq_true, decide_eq_true_eq]
      intro x hx
      rw [h x (List.mem_cons_of_mem _ hx), h l (List.mem_cons_self _ _)]

lemma optMap_tokFloat_mapNum (g : ℚ → ℚ) (l : List ℚ) :
    optMap tokFloat (l.map (fun x => Tok.num (g x))) = some (l.map g) := by
  induction l with
  | nil => rfl
  | cons x xs ih => simp [optMap, tokFloat, ih]

lemma optMap_tokInt_cast (l : List ℤ) :
    optMap tokInt (l.map (fun n : ℤ => Tok.num ((n : ℚ)))) = some l := by
  induction l with
  | nil => rfl
  | cons n ns ih =>
      simp [optMap, tokInt, Rat.intCast_den, Rat.intCast_num, ih]

lemma zip_replicate_map {α β γ : Type} (l : List α) (c : β) (g : α × β → γ) :
    (l.zip (List.replicate l.length c)).map g = l.map (fun a => g (a, c)) := by
  induction l with
  | nil => rfl
  | cons a l ih => simp [List.replicate_succ, ih]

lemma abs_fmtF_sub (d : ℕ) (q : ℚ) : |fmtF d q - q| ≤ 1 / (2 * 10 ^ d) := by
  have h10 : (0 : ℚ) < 10 ^ d := by positivity
  have key : fmtF d q - q = ((round (q * 10 ^ d) : ℚ) - q * 10 ^ d) / 10 ^ d := by
    rw [fmtF]
    field_simp
    ring
  have htol : (1 : ℚ) / (2 * 10 ^ d) = (1 / 2) / 10 ^ d := by
    rw [div_div]
  rw [key, abs_div, abs_of_pos h10, htol,
    div_le_div_iff_of_pos_right h10]
  rw [abs_sub_comm]
  exact abs_sub_round (q * 10 ^ d)

lemma optMap_tokFloat_mapNum2 (g : ℚ → ℚ) (rows : List (List ℚ)) :
    optMap (fun l => optMap tokFloat l)
        (rows.map (fun r => r.map (fun x => Tok.num (g x))))
      = some (rows.map (List.map g)) := by
  induction rows with
  | nil => rfl
  | cons r rs ih => simp [optMap, optMap_tokFloat_mapNum, ih]

lemma poscar_content_load (bc : ℚ) (b1 b2 b3 : List ℚ) (atoms : List Tok)
    (nums : List ℤ) (data : List (List ℚ)) (nt tot : ℤ)
    (hbr : ∀ b ∈ [b1, b2, b3], b.length = 3)
    (hdr : ∀ r ∈ data, r.length = 3)
    (hane : atoms ≠ []) (hlen : atoms.length = nums.length)
    (hsum : nums.sum = (data.length : ℤ)) :
    ∃ out, AtomCo.get_poscar_content
        ⟨bc, [b1, b2, b3], atoms, nums, nt, data,
          List.replicate data.length tttRow, tot⟩ = some out ∧
      PosCar.load out = some ⟨fmtF 9 bc,
        [b1, b2, b3].map (List.map (fmtF 8)), atoms, nums, nums.sum,
        data.map (List.map (fmtF 12)), List.replicate data.length tttRow,
        9 + nums.sum⟩ := by
  have hne2 : (atoms.zip nums).isEmpty = false := by
    cases atoms with
    | nil => exact absurd rfl hane
    | cons a as =>
        cases nums with
        | nil => simp at hlen
        | cons m ms => rfl
  have h1 : fmtBasisLine b1 = some (b1.map (fun x => Tok.num (fmtF 8 x))) := by
    obtain ⟨x, y, z, rfl⟩ := List.length_eq_three.1 (hbr b1 (by simp))
    rfl
  have h2 : fmtBasisLine b2 = some (b2.map (fun x => Tok.num (fmtF 8 x))) := by
    obtain ⟨x, y, z, rfl⟩ := List.length_eq_three.1 (hbr b2 (by simp))
    rfl
  have h3 : fmtBasisLine b3 = some (b3.map (fun x => Tok.num (fmtF 8 x))) := by
    obtain ⟨x, y, z, rfl⟩ := List.length_eq_three.1 (hbr b3 (by simp))
    rfl
  have hdl : optMap (fun r => fmtDataLine r.1 r.2)
      (data.zip (List.replicate data.length tttRow))
      = some (data.map (fun r => r.map (fun x => Tok.num (fmtF 12 x)) ++ tttRow)) := by
    have hmem : ∀ r ∈ data.zip (List.replicate data.length tttRow),
        (fun r : List ℚ × Line => fmtDataLine r.1 r.2) r
          = some ((fun r : List ℚ × Line =>
              r.1.map (fun x => Tok.num (fmtF 12 x)) ++ r.2) r) := by
      intro r hr
      obtain ⟨hr1, hr2⟩ := List.of_mem_zip hr
      have hr2e : r.2 = tttRow := List.eq_of_mem_replicate hr2
      obtain ⟨x, y, z, hxyz⟩ := List.length_eq_three.1 (hdr r.1 hr1)
      show fmtDataLine r.1 r.2
        = some (r.1.map (fun x => Tok.num (fmtF 12 x)) ++ r.2)
      rw [hxyz, hr2e]
      rfl
    rw [optMap_congr_some _ _ _ hmem, zip_replicate_map]
  have hsnd : (atoms.zip nums).map (fun a => Tok.num ((a.2 : ℚ)))
      = nums.map (fun n : ℤ => Tok.num ((n : ℚ))) := by
    rw [show (fun a : Tok × ℤ => Tok.num ((a.2 : ℚ)))
        = (fun n : ℤ => Tok.num ((n : ℚ))) ∘ Prod.snd from rfl]
    rw [← List.map_map, List.map_snd_zip _ _ (le_of_eq hlen.symm)]
  have hcontent : AtomCo.get_poscar_content
      ⟨bc, [b1, b2, b3], atoms, nums, nt, data,
        List.replicate data.length tttRow, tot⟩
      = some (titleLine :: [Tok.num (fmtF 9 bc)] ::
          b1.map (fun x => Tok.num (fmtF 8 x)) ::
          b2.map (fun x => Tok.num (fmtF 8 x)) ::
          b3.map (fun x => Tok.num (fmtF 8 x)) ::
          atoms :: nums.map (fun n : ℤ => Tok.num ((n : ℚ))) ::
          selDynLine :: directLine ::
          data.map (fun r => r.map (fun x => Tok.num (fmtF 12 x)) ++ tttRow)) := by
    unfold AtomCo.get_poscar_content
    simp only [hne2, Bool.false_eq_true, if_false, Option.bind_eq_bind',
      Option.some_bind, optMap, h1, h2, h3, hdl,
      List.map_fst_zip atoms nums (le_of_eq hlen), hsnd]
    simp [List.cons_append]
  refine ⟨_, hcontent, ?_⟩
  rw [PosCar.load]
  have hnp1 : npFloat2d [b1.map (fun x => Tok.num (fmtF 8 x)),
      b2.map (fun x => Tok.num (fmtF 8 x)), b3.map (fun x => Tok.num (fmtF 8 x))]
      = some ([b1, b2, b3].map (List.map (fmtF 8))) := by
    unfold npFloat2d
    rw [allSameLength_of (n := 3) _ ?_]
    · simp [optMap, optMap_tokFloat_mapNum]
    · intro l hl
      rcases List.mem_cons.1 hl with h | hl
      · rw [h, List.length_map]; exact hbr b1 (by simp)
      rcases List.mem_cons.1 hl with h | hl
      · rw [h, List.length_map]; exact hbr b2 (by simp)
      rcases List.mem_cons.1 hl with h | hl
      · rw [h, List.length_map]; exact hbr b3 (by simp)
      · exact absurd hl (by simp)
  have hsel : lineStartsWithS selDynLine = true := by decide
  have htn : (nums.sum).toNat = data.length := by omega
  have hdOutLen : (data.map
      (fun r => r.map (fun x => Tok.num (fmtF 12 x)) ++ tttRow)).length
      = data.length := by simp
  have htake : (data.map
      (fun r => r.map (fun x => Tok.num (fmtF 12 x)) ++ tttRow)).take data.length
      = data.map (fun r => r.map (fun x => Tok.num (fmtF 12 x)) ++ tttRow) :=
    List.take_of_length_le (le_of_eq hdOutLen)
  have hrows : (data.map
      (fun r => r.map (fun x => Tok.num (fmtF 12 x)) ++ tttRow)).map
        (fun l => l.take 3)
      = data.map (fun r => r.map (fun x => Tok.num (fmtF 12 x))) := by
    rw [List.map_map]
    apply List.map_congr_left
    intro r hr
    show ((r.map (fun x => Tok.num (fmtF 12 x))) ++ tttRow).take 3
      = r.map (fun x => Tok.num (fmtF 12 x))
    exact List.take_left' (by simp [hdr r hr])
  have hnp2 : npFloat2d (data.map (fun r => r.map (fun x => Tok.num (fmtF 12 x))))
      = some (data.map (List.map (fmtF 12))) := by
    unfold npFloat2d
    rw [allSameLength_of (n := 3) _ ?_]
    · exact optMap_tokFloat_mapNum2 (fmtF 12) data
    · intro l hl
      obtain ⟨r, hr, rfl⟩ := List.mem_map.1 hl
      simp [hdr r hr]
  have htf : (data.map
      (fun r => r.map (fun x => Tok.num (fmtF 12 x)) ++ tttRow)).map
        (fun l => if 3 < l.length then l.drop 3 else tttRow)
      = List.replicate data.length tttRow := by
    rw [List.map_map]
    rw [List.map_congr_left (g := fun _ => tttRow) ?_, List.map_const']
    intro r hr
    have hlen6 : ((r.map (fun x => Tok.num (fmtF 12 x))) ++ tttRow).length = 6 := by
      simp [hdr r hr, tttRow]
    show (if 3 < ((r.map (fun x => Tok.num (fmtF 12 x))) ++ tttRow).length
      then ((r.map (fun x => Tok.num (fmtF 12 x))) ++ tttRow).drop 3
      else tttRow) = tttRow
    rw [hlen6, if_pos (by norm_num)]
    exact List.drop_left' (by simp [hdr r hr])
  have hver : AtomCo.verify (data.map (List.map (fmtF 12))).length nums.sum
      = some () := by
    simp [AtomCo.verify, hsum]
  simp only [List.get?_cons_succ, List.get?_cons_zero, Option.bind_eq_bind',
    Option.some_bind, lineFloat, List.drop_succ_cons, List.drop_zero,
    List.take_succ_cons, List.take_zero, hnp1, optMap_tokInt_cast, hsel,
    if_true, htn, htake, hrows, hnp2, htf, hver]
  simp [htake, hrows, hnp2, htf, hver]

lemma npFloat2d_eq_some (rows : List Line) (out : List (List ℚ))
    (h : npFloat2d rows = some out) :
    allSameLength rows = true ∧
      List.Forall₂ (fun a b => optMap tokFloat a = some b) rows out := by
  rw [npFloat2d] at h
  split at h
  · exact ⟨by assumption, optMap_forall₂ _ _ _ h⟩
  · exact absurd h (by simp)

lemma poscar_content_load2 (p : PosCar) (b1 b2 b3 : List ℚ)
    (hbs : p.bases = [b1, b2, b3])
    (htfp : p.tf = List.replicate p.data.length tttRow)
    (hbr : ∀ b ∈ [b1, b2, b3], b.length = 3)
    (hdr : ∀ r ∈ p.data, r.length = 3)
    (hane : p.atoms ≠ []) (hlen : p.atoms.length = p.atoms_num.length)
    (hsum : p.atoms_num.sum = (p.data.length : ℤ)) :
    ∃ out, AtomCo.get_poscar_content p = some out ∧
      PosCar.load out = some ⟨fmtF 9 p.bases_const,
        p.bases.map (List.map (fmtF 8)), p.atoms, p.atoms_num, p.atoms_num.sum,
        p.data.map (List.map (fmtF 12)), List.replicate p.data.length tttRow,
        9 + p.atoms_num.sum⟩ := by
  obtain ⟨bc, bs, atoms, nums, nt, data, tf, tot⟩ := p
  simp only at hbs htfp hdr hane hlen hsum ⊢
  subst hbs
  subst htfp
  exact poscar_content_load bc b1 b2 b3 atoms nums data nt tot hbr hdr hane
    hlen hsum

/-- C1: for every Lattice-format document without constraint columns (no
selective-dynamics marker on line 7, 3-column basis and coordinate lines),
parsing, serializing the resulting system and parsing again yields a system
with the same `atoms` and `atoms_num`, coordinates equal to the originals
rounded to the writer's 12 decimal digits (hence within half an ulp of the
fixed-width format), and constraints now explicitly all-movable
(`['T','T','T']` for every row). -/
theorem poscar_roundtrip (doc : List Line) (p : PosCar)
    (hp : PosCar.load doc = some p)
    (hS : ∀ l7 ∈ doc.get? 7, lineStartsWithS l7 = false)
    (hbases : ∀ l ∈ (doc.drop 2).take 3, l.length = 3)
    (hnc : ∀ l ∈ doc.drop 8, l.length = 3)
    (hac : p.atoms.length = p.atoms_num.length)
    (hane : p.atoms ≠ []) :
    ∃ out p2, AtomCo.get_poscar_content p = some out ∧
      PosCar.load out = some p2 ∧
      p2.atoms = p.atoms ∧ p2.atoms_num = p.atoms_num ∧
      p2.data = p.data.map (List.map (fmtF 12)) ∧
      List.Forall₂ (List.Forall₂ (fun x y => |x - y| ≤ 1 / (2 * 10 ^ 12)))
        p2.data p.data ∧
      p2.tf = List.replicate p.data.length tttRow := by
  rw [PosCar.load] at hp
  simp only [Option.bind_eq_bind', Option.bind_eq_some, Option.some.injEq] at hp
  obtain ⟨line1, hline1, bc, hbc, bases, hnpb, atoms, hatoms, numsLine, hnumsl,
    anums, hanums, line7, hline7, data, hdata, u, hu, hpeq⟩ := hp
  have hS7 : lineStartsWithS line7 = false := hS line7 (Option.mem_def.2 hline7)
  simp only [hS7, Bool.false_eq_true, if_false] at hdata hpeq
  simp only [AtomCo.verify, Option.ite_none_right_eq_some] at hu
  obtain ⟨hveq, -⟩ := hu
  obtain ⟨-, hford⟩ := npFloat2d_eq_some _ _ hdata
  obtain ⟨-, hforb⟩ := npFloat2d_eq_some _ _ hnpb
  have hdoclen : 7 < doc.length := by
    by_contra hcon
    push_neg at hcon
    rw [List.get?_eq_none.2 hcon] at hline7
    exact Option.noConfusion hline7
  have hblen : bases.length = 3 := by
    have hlb := hforb.length_eq
    have : ((doc.drop 2).take 3).length = 3 := by
      simp only [List.length_take, List.length_drop]
      omega
    omega
  obtain ⟨b1, b2, b3, rfl⟩ := List.length_eq_three.1 hblen
  have hbr : ∀ b ∈ [b1, b2, b3], b.length = 3 := by
    intro b hb
    obtain ⟨a, ha, hab⟩ := mem_of_forall₂_right hforb b hb
    have ha3 : a.length = 3 := hbases a ha
    have := (optMap_forall₂ _ _ _ hab).length_eq
    omega
  have hdr : ∀ r ∈ data, r.length = 3 := by
    intro r hr
    obtain ⟨a, ha, har⟩ := mem_of_forall₂_right hford r hr
    obtain ⟨l, hl, hla⟩ := List.mem_map.1 ha
    have hl3 : l.length = 3 := hnc l (List.mem_of_mem_take hl)
    have halen : a.length = 3 := by
      rw [← hla]
      simp [List.length_take, hl3]
    have := (optMap_forall₂ _ _ _ har).length_eq
    omega
  have hdll : data.length = ((doc.drop 8).take (anums.sum).toNat).length := by
    have := hford.length_eq
    simpa using this.symm
  have htf : ((doc.drop 8).take (anums.sum).toNat).map
      (fun l => if 3 < l.length then l.drop 3 else tttRow)
      = List.replicate data.length tttRow := by
    rw [List.map_congr_left (g := fun _ => tttRow) ?_, List.map_const']
    · rw [hdll]
    · intro l hl
      have h3 : l.length = 3 := hnc l (List.mem_of_mem_take hl)
      simp [h3]
  have hpb : p.bases = [b1, b2, b3] := by rw [← hpeq]
  have hpd : p.data = data := by rw [← hpeq]
  have hpatoms : p.atoms = atoms := by rw [← hpeq]
  have hpnums : p.atoms_num = anums := by rw [← hpeq]
  have hptf : p.tf = List.replicate p.data.length tttRow := by
    rw [← hpeq]
    exact htf
  have hpsum : p.atoms_num.sum = (p.data.length : ℤ) := by
    rw [hpnums, hpd]
    exact hveq.symm
  obtain ⟨out, hout, hload⟩ := poscar_content_load2 p b1 b2 b3 hpb hptf hbr
    (by rw [hpd]; exact hdr) hane hac hpsum
  refine ⟨out, _, hout, hload, rfl, rfl, rfl, ?_, by rfl⟩
  rw [List.forall₂_map_left_iff]
  refine List.forall₂_same.2 (fun r hr => ?_)
  rw [List.forall₂_map_left_iff]
  exact List.forall₂_same.2 (fun x hx => abs_fmtF_sub 12 x)

/-- A Lattice-format document without constraint columns: identity basis,
one H atom in direct coordinates. -/
def poscarExampleDoc : List Line :=
  [[Tok.str "comment"],
   [Tok.num 1],
   [Tok.num 1, Tok.num 0, Tok.num 0],
   [Tok.num 0, Tok.num 1, Tok.num 0],
   [Tok.num 0, Tok.num 0, Tok.num 1],
   [Tok.str "H"],
   [Tok.num 1],
   [Tok.str "Direct"],
   [Tok.num (1/4), Tok.num (1/4), Tok.num (1/2)]]

/-- The system `poscarExampleDoc` parses to. -/
def poscarExampleParsed : PosCar :=
  ⟨1, [[1, 0, 0], [0, 1, 0], [0, 0, 1]], [Tok.str "H"], [1], 1,
   [[1/4, 1/4, 1/2]], [tttRow], 9⟩

/-- Witness for C1 on a concrete constraint-free document. -/
theorem poscar_roundtrip_witness :
    ∃ out p2, AtomCo.get_poscar_content poscarExampleParsed = some out ∧
      PosCar.load out = some p2 ∧
      p2.atoms = poscarExampleParsed.atoms ∧
      p2.atoms_num = poscarExampleParsed.atoms_num ∧
      p2.data = poscarExampleParsed.data.map (List.map (fmtF 12)) ∧
      List.Forall₂ (List.Forall₂ (fun x y => |x - y| ≤ 1 / (2 * 10 ^ 12)))
        p2.data poscarExampleParsed.data ∧
      p2.tf = List.replicate poscarExampleParsed.data.length tttRow :=
  poscar_roundtrip poscarExampleDoc poscarExampleParsed (by decide)
    (by intro l7 hl7
        rw [show poscarExampleDoc.get? 7 = some [Tok.str "Direct"] from rfl] at hl7
        injection hl7 with h
        rw [← h]
        decide)
    (by decide) (by decide) (by decide) (by decide)

end RatEval
